import Mathlib

/-!
Verification development for the denkwerk workflow-graph repository.

The first half of this file is a shallow embedding, in Lean, of the data
model and the operations of the repository's frontend sources
(`frontend/src/types.ts`, `frontend/src/utils/flowNodes.ts`,
`frontend/src/components/CanvasArea.tsx`, `frontend/src/utils/flowConfig.ts`,
`frontend/src/services/apiClient.ts`, and the YAML normalisation module).
TypeScript `x?: T` fields become `Option T`, JavaScript numbers become `Rat`
(no floating-point arithmetic is ever performed on them, they are only
transported), and JavaScript's `null`/`undefined` are explicit constructors
of the JSON value type.

The flow execution engine itself is not part of the repository sources; the
second half models it from the specification text (sections 4.1, 4.3, 4.4,
4.7 and 6) as a deterministic interpreter parameterised by an oracle for the
external collaborators (model provider, tool registry, condition evaluator).

The theorems at the end of the file settle the frozen claims C1 .. C10.
-/

set_option autoImplicit false

namespace Denkwerk

/-! ## Data model: `frontend/src/types.ts` -/

/-- `NodeInput` from types.ts: `{ from: string }`.  `from` is a Lean keyword,
so the field is called `from_`. -/
structure NodeInput where
  from_ : String
deriving DecidableEq

/-- `NodeOutput` from types.ts: `{ label: string; condition?: string }`. -/
structure NodeOutput where
  label : String
  condition : Option String := none
deriving DecidableEq

/-- `NodeLayout` from types.ts (canvas position; presentation only). -/
structure NodeLayout where
  x : Rat
  y : Rat
deriving DecidableEq

/-- `NodeBase` from types.ts. -/
structure NodeBase where
  id : String
  name : Option String := none
  description : Option String := none
  inputs : Option (List NodeInput) := none
  outputs : Option (List NodeOutput) := none
  layout : Option NodeLayout := none
deriving DecidableEq

/-- `RetryPolicy` from types.ts. -/
structure RetryPolicy where
  max : Nat
  backoff_ms : Option Nat := none
deriving DecidableEq

/-- `CallSettings` from types.ts. -/
structure CallSettings where
  model : Option String := none
  temperature : Option Rat := none
  top_p : Option Rat := none
  max_tokens : Option Nat := none
  timeout_ms : Option Nat := none
  retry : Option RetryPolicy := none
deriving DecidableEq

/-- `DecisionStrategy` from types.ts: `"llm" | "rule"`. -/
inductive DecisionStrategy where
  | llm
  | rule
deriving DecidableEq

/-- The kind variant of a `FlowNode` (types.ts lines 77-135).  The TS source
is a closed union of nine single-tag interfaces; each interface becomes one
constructor carrying that interface's non-tag fields. -/
inductive FlowNodeKind where
  | input
  | output
  | agent (agent : String) (prompt : Option String) (tools : Option (List String))
      (parameters : Option CallSettings)
  | decision (prompt : Option String) (strategy : Option DecisionStrategy)
  | tool (tool : String)
  | merge
  | parallel (converge : Option Bool)
  | loop (max_iterations : Option Nat) (condition : Option String)
  | subflow (flow : String)
deriving DecidableEq

/-- `FlowNode` from types.ts: `{ base: NodeBase; kind: <variant> }`. -/
structure FlowNode where
  base : NodeBase
  kind : FlowNodeKind
deriving DecidableEq

/-- `FlowEdge` from types.ts.  `from` and `to` are Lean keywords, hence `from_` and `to_`. -/
structure FlowEdge where
  from_ : String
  to_ : String
  condition : Option String := none
  label : Option String := none
deriving DecidableEq

/-- `FlowDefinition` from types.ts. -/
structure FlowDefinition where
  id : String
  entry : String
  nodes : List FlowNode
  edges : List FlowEdge
deriving DecidableEq

/-- `AgentDefinition` from types.ts. -/
structure AgentDefinition where
  id : String
  model : String
  name : Option String := none
  description : Option String := none
  system_prompt : Option String := none
  tools : Option (List String) := none
  defaults : Option CallSettings := none
deriving DecidableEq

/-- `ToolDefinition` from types.ts. -/
structure ToolDefinition where
  id : String
  kind : String
  description : Option String := none
  spec : Option String := none
  function : Option String := none
deriving DecidableEq

/-- `PromptDefinition` from types.ts. -/
structure PromptDefinition where
  id : String
  file : String
  description : Option String := none
deriving DecidableEq

/-- `FlowMetadata` from types.ts. -/
structure FlowMetadata where
  name : Option String := none
  description : Option String := none
  tags : Option (List String) := none
deriving DecidableEq

/-- `FlowDocument` from types.ts. -/
structure FlowDocument where
  version : String
  metadata : Option FlowMetadata := none
  agents : List AgentDefinition
  tools : List ToolDefinition
  prompts : List PromptDefinition
  flows : List FlowDefinition
deriving DecidableEq

/-- The string tag (`kind.type` in TS) of a node-kind variant. -/
def flowNodeKindTag : FlowNodeKind → String
  | .input => "input"
  | .output => "output"
  | .agent _ _ _ _ => "agent"
  | .decision _ _ => "decision"
  | .tool _ => "tool"
  | .merge => "merge"
  | .parallel _ => "parallel"
  | .loop _ _ => "loop"
  | .subflow _ => "subflow"

/-- The nine node-kind tags of the data model (spec section 3, glossary). -/
def flowNodeKindTags : List String :=
  ["input", "output", "agent", "decision", "tool", "merge", "parallel", "loop", "subflow"]

/-- Declared input slots of a node: `base.inputs` with TS
`undefined` read as the empty list. -/
def declaredInputs (n : FlowNode) : List NodeInput :=
  n.base.inputs.getD []

/-- Declared output slots of a node: `base.outputs` with TS
`undefined` read as the empty list. -/
def declaredOutputs (n : FlowNode) : List NodeOutput :=
  n.base.outputs.getD []

/-- Labels of the declared outputs of a node. -/
def declaredOutputLabels (n : FlowNode) : List String :=
  (declaredOutputs n).map (·.label)

/-! ## `frontend/src/utils/flowNodes.ts` -/

/-- `FlowNodeKindType` from types.ts: the tag string of a node kind, as an
enumeration (`FlowNode["kind"]["type"]`). -/
inductive FlowNodeKindType where
  | input
  | output
  | agent
  | decision
  | tool
  | merge
  | parallel
  | loop
  | subflow
deriving DecidableEq

/-- `createFlowNode` from flowNodes.ts.  The source computes the node id as
`id ?? uid(type)` where `uid` draws from `Math.random()`; the resolved id is
taken here as the argument `id`, so the randomness of `uid` stays outside
the model.  Every `case` of the TS `switch` is mirrored, including the
redundant re-assignment of `outputs` in the `"input"` case. -/
def createFlowNode (type : FlowNodeKindType) (id : String) : FlowNode :=
  let base : NodeBase :=
    { id := id, inputs := some [], outputs := some [{ label := "out" }] }
  match type with
  | .input =>
      { base := { base with outputs := some [{ label := "out" }] }, kind := .input }
  | .output =>
      { base := { base with inputs := some [{ from_ := "" }], outputs := some [] },
        kind := .output }
  | .agent => { base := base, kind := .agent "" none none none }
  | .decision =>
      { base := { base with outputs := some [] }, kind := .decision none (some .llm) }
  | .tool => { base := base, kind := .tool "" }
  | .merge =>
      { base :=
          { base with
            inputs := some [{ from_ := "" }, { from_ := "" }]
            outputs := some [{ label := "out" }] }
        kind := .merge }
  | .parallel =>
      { base := { base with outputs := some [{ label := "out" }] },
        kind := .parallel (some true) }
  | .loop =>
      { base := { base with outputs := some [{ label := "out" }] },
        kind := .loop (some 3) none }
  | .subflow => { base := base, kind := .subflow "" }

/-- `getDefaultOutput` from flowNodes.ts:
`nodes.find(n => n.base.id === sourceId)?.base.outputs?.[0]?.label ?? "out"`. -/
def getDefaultOutput (nodes : List FlowNode) (sourceId : String) : String :=
  match nodes.find? (fun n => n.base.id == sourceId) with
  | some n =>
      match n.base.outputs with
      | some (o :: _) => o.label
      | _ => "out"
  | none => "out"

/-! ## `frontend/src/components/CanvasArea.tsx` -/

/-- A react-flow `Connection` as consumed by `handleConnect`:
`source`, `target` and `sourceHandle` are each `string | null`. -/
structure Connection where
  source : Option String
  target : Option String
  sourceHandle : Option String
deriving DecidableEq

/-- `handleConnect` from CanvasArea.tsx lines 40-46.  It returns the updated
flow passed to `onUpdateFlow`, or `none` when the early-return on a null
source or target fires. -/
def handleConnect (flow : FlowDefinition) (c : Connection) : Option FlowDefinition :=
  match c.source, c.target with
  | some s, some t =>
      let defaultOutput := getDefaultOutput flow.nodes s
      let fromStr := s ++ "/" ++ (c.sourceHandle.getD defaultOutput)
      some { flow with edges := flow.edges ++ [{ from_ := fromStr, to_ := t }] }
  | _, _ => none

/-- JavaScript `s.split(sep)` for a one-character separator `c`: splits at
every occurrence of `c`, keeping empty pieces (so `"".split(c)` is `[""]`). -/
def jsSplitCharGo (c : Char) : List Char → List Char → List String
  | [], acc => [String.mk acc.reverse]
  | x :: xs, acc =>
      if x = c then String.mk acc.reverse :: jsSplitCharGo c xs []
      else jsSplitCharGo c xs (x :: acc)

/-- JavaScript `s.split("/")`-style splitting of a string at a character. -/
def jsSplitChar (c : Char) (s : String) : List String :=
  jsSplitCharGo c s.data []

/-- The fields of a react-flow `Edge` that `mapEdges` computes from a
`FlowEdge` (CanvasArea.tsx lines 150-165); presentation-only fields
(styles, markers) are omitted. -/
structure MappedEdge where
  id : String
  source : String
  target : String
  sourceHandle : Option String
  label : Option String
deriving DecidableEq

/-- One step of `mapEdges`:
`const [source, sourceHandle] = edge.from.split("/")` and
`const [target] = edge.to.split("/")`.  Array destructuring takes the first
two pieces (the second is `undefined`, i.e. `none`, when `from` has no
`"/"`); surplus pieces are discarded. -/
def mapEdge (idx : Nat) (e : FlowEdge) : MappedEdge :=
  let parts := jsSplitChar '/' e.from_
  let targetParts := jsSplitChar '/' e.to_
  { id := e.from_ ++ "-" ++ e.to_ ++ "-" ++ toString idx
    source := (parts.get? 0).getD ""
    target := (targetParts.get? 0).getD ""
    sourceHandle := parts.get? 1
    label := e.label }

/-- `mapEdges` from CanvasArea.tsx: indexed map of `mapEdge`. -/
def mapEdges (edges : List FlowEdge) : List MappedEdge :=
  edges.enum.map (fun p => mapEdge p.1 p.2)

/-! ## `removeNode` from `frontend/src/utils/flowConfig.ts` lines 270-279
(and its identical copy in the unnamed app source). -/

/-- JavaScript `s.startsWith(pre)`: the characters of `pre` lead `s`. -/
def jsStartsWith (s pre : String) : Bool :=
  pre.data.isPrefixOf s.data

/-- `removeNode`: drops the node whose id is `nodeId` and keeps exactly the
edges `e` with `!e.from.startsWith(nodeId) && !e.to.startsWith(nodeId)`.
Note the source tests string prefixes, not node-id equality. -/
def removeNode (flow : FlowDefinition) (nodeId : String) : FlowDefinition :=
  { flow with
    nodes := flow.nodes.filter (fun n => n.base.id != nodeId)
    edges := flow.edges.filter
      (fun e => !(jsStartsWith e.from_ nodeId) && !(jsStartsWith e.to_ nodeId)) }

/-! ## JSON-like values

JavaScript values manipulated generically (object spread in
`apiClient.executeFlow`, the recursive `deepClean` of the YAML module) are
modelled by a JSON value type.  Arrays and objects carry bespoke list types
(`JList`, `JProps`) so that all recursions below are structural and reduce
inside the kernel.  `undef` models JavaScript `undefined`, `jnull` models
`null`; object entries keep their insertion order, as JS objects do. -/

mutual

inductive JValue where
  | undef
  | jnull
  | bool (b : Bool)
  | num (q : Rat)
  | str (s : String)
  | arr (elems : JList)
  | obj (entries : JProps)
deriving DecidableEq

inductive JList where
  | nil
  | cons (head : JValue) (tail : JList)
deriving DecidableEq

inductive JProps where
  | nil
  | cons (key : String) (value : JValue) (tail : JProps)
deriving DecidableEq

end

/-- First value bound to `k`, as JS property lookup on our ordered entries. -/
def JProps.lookup : JProps → String → Option JValue
  | .nil, _ => none
  | .cons k v t, k2 => if k = k2 then some v else JProps.lookup t k2

/-- The keys of an entry list, in order. -/
def JProps.keys : JProps → List String
  | .nil => []
  | .cons k _ t => k :: JProps.keys t

/-- Concatenation of entry lists. -/
def JProps.append : JProps → JProps → JProps
  | .nil, b => b
  | .cons k v t, b => .cons k v (JProps.append t b)

/-- Membership of a key/value pair in an entry list. -/
def JProps.Mem (k : String) (v : JValue) : JProps → Prop
  | .nil => False
  | .cons k2 v2 t => (k = k2 ∧ v = v2) ∨ JProps.Mem k v t

/-! ## `frontend/src/services/apiClient.ts`, `executeFlow` (lines 121-146) -/

/-- JS object spread `{...a, ...b}` restricted to the keys of `a`: each entry
of `a` keeps its position, its value replaced by `b`'s when `b` also binds
the key. -/
def spreadLeft (b : JProps) : JProps → JProps
  | .nil => .nil
  | .cons k v t =>
      .cons k ((b.lookup k).getD v) (spreadLeft b t)

/-- JS object spread `{...a, ...b}` restricted to the keys of `b` that are
new: entries of `b` whose key `a` does not bind, in order. -/
def spreadRight (a : JProps) : JProps → JProps
  | .nil => .nil
  | .cons k v t =>
      if (a.lookup k).isSome then spreadRight a t
      else .cons k v (spreadRight a t)

/-- JS object spread `{...a, ...b}`: `a`'s keys in place (overridden by `b`
where both bind), then `b`'s new keys. -/
def spreadMerge (a b : JProps) : JProps :=
  (spreadLeft b a).append (spreadRight a b)

/-- Encoding of a `NodeInput` as the JS object `{ from: ... }`. -/
def nodeInputJ (i : NodeInput) : JValue :=
  .obj (.cons "from" (.str i.from_) .nil)

/-- Prepend `key := v` when the optional value is present (a TS optional
field that is absent contributes no key). -/
def optProp (key : String) (v : Option JValue) (rest : JProps) : JProps :=
  match v with
  | some x => .cons key x rest
  | none => rest

/-- Encoding of a `NodeOutput` as `{ label: ..., condition?: ... }`. -/
def nodeOutputJ (o : NodeOutput) : JValue :=
  .obj (.cons "label" (.str o.label) (optProp "condition" (o.condition.map .str) .nil))

/-- Encoding of a list of JSON values as a JSON array. -/
def jlistOf : List JValue → JList
  | [] => .nil
  | x :: xs => .cons x (jlistOf xs)

/-- Encoding of a `NodeLayout` as `{ x: ..., y: ... }`. -/
def nodeLayoutJ (l : NodeLayout) : JValue :=
  .obj (.cons "x" (.num l.x) (.cons "y" (.num l.y) .nil))

/-- Encoding of a `RetryPolicy` as a JS object. -/
def retryPolicyJ (r : RetryPolicy) : JValue :=
  .obj (.cons "max" (.num r.max) (optProp "backoff_ms" (r.backoff_ms.map (fun n => .num n)) .nil))

/-- Encoding of `CallSettings` as a JS object. -/
def callSettingsJ (c : CallSettings) : JValue :=
  .obj (optProp "model" (c.model.map .str)
    (optProp "temperature" (c.temperature.map .num)
      (optProp "top_p" (c.top_p.map .num)
        (optProp "max_tokens" (c.max_tokens.map (fun n => .num n))
          (optProp "timeout_ms" (c.timeout_ms.map (fun n => .num n))
            (optProp "retry" (c.retry.map retryPolicyJ) .nil))))))

/-- The fields contributed by `n.base` to the spread `{...n.base, ...n.kind}`
of `executeFlow`, in `NodeBase` declaration order; absent optional fields
contribute no key. -/
def baseFields (b : NodeBase) : JProps :=
  .cons "id" (.str b.id)
    (optProp "name" (b.name.map .str)
      (optProp "description" (b.description.map .str)
        (optProp "inputs" (b.inputs.map (fun l => .arr (jlistOf (l.map nodeInputJ))))
          (optProp "outputs" (b.outputs.map (fun l => .arr (jlistOf (l.map nodeOutputJ))))
            (optProp "layout" (b.layout.map nodeLayoutJ) .nil)))))

/-- The string of a decision strategy. -/
def decisionStrategyTag : DecisionStrategy → String
  | .llm => "llm"
  | .rule => "rule"

/-- The fields contributed by `n.kind` to the spread `{...n.base, ...n.kind}`
of `executeFlow`: the `type` tag followed by the variant's own fields. -/
def kindFields : FlowNodeKind → JProps
  | .input => .cons "type" (.str "input") .nil
  | .output => .cons "type" (.str "output") .nil
  | .agent a prompt tools params =>
      .cons "type" (.str "agent")
        (.cons "agent" (.str a)
          (optProp "prompt" (prompt.map .str)
            (optProp "tools" (tools.map (fun l => .arr (jlistOf (l.map .str))))
              (optProp "parameters" (params.map callSettingsJ) .nil))))
  | .decision prompt strategy =>
      .cons "type" (.str "decision")
        (optProp "prompt" (prompt.map .str)
          (optProp "strategy" (strategy.map (fun s => .str (decisionStrategyTag s))) .nil))
  | .tool t => .cons "type" (.str "tool") (.cons "tool" (.str t) .nil)
  | .merge => .cons "type" (.str "merge") .nil
  | .parallel converge =>
      .cons "type" (.str "parallel") (optProp "converge" (converge.map .bool) .nil)
  | .loop maxIter condition =>
      .cons "type" (.str "loop")
        (optProp "max_iterations" (maxIter.map (fun n => .num n))
          (optProp "condition" (condition.map .str) .nil))
  | .subflow f => .cons "type" (.str "subflow") (.cons "flow" (.str f) .nil)

/-- The flattened node object `{...n.base, ...n.kind}` built by
`executeFlow` for each node of each flow. -/
def flattenNode (n : FlowNode) : JProps :=
  spreadMerge (baseFields n.base) (kindFields n.kind)

/-- A flow as it appears in the backend payload: `{...f, nodes: <flattened>}`
keeps `id`, `entry` and `edges` and replaces `nodes`. -/
structure BackendFlow where
  id : String
  entry : String
  nodes : List JProps
  edges : List FlowEdge
deriving DecidableEq

/-- The document as it appears in the backend payload: `{...flow, flows: ...}`
keeps `version`, `metadata`, `agents`, `tools`, `prompts` and replaces
`flows`. -/
structure BackendDocument where
  version : String
  metadata : Option FlowMetadata
  agents : List AgentDefinition
  tools : List ToolDefinition
  prompts : List PromptDefinition
  flows : List BackendFlow
deriving DecidableEq

/-- The `backendFlow` object built by `apiClient.executeFlow` (lines
127-136) before it is serialised into the request body. -/
def executeFlowPayload (doc : FlowDocument) : BackendDocument :=
  { version := doc.version
    metadata := doc.metadata
    agents := doc.agents
    tools := doc.tools
    prompts := doc.prompts
    flows := doc.flows.map (fun f =>
      { id := f.id
        entry := f.entry
        nodes := f.nodes.map flattenNode
        edges := f.edges }) }

/-! ## YAML normalisation module (`deepClean`, `normalizeDocument`)

The module imports `FlowDocument` and `stringify` and exports
`normalizeDocument` and `toYaml`; only the former two are modelled
(`toYaml` delegates string rendering to the external `yaml` package). -/

/-- The whitespace characters trimmed by JS `String.prototype.trim` that can
occur in the documents at hand (ASCII whitespace). -/
def isJsWhitespace (c : Char) : Bool :=
  c = ' ' || c = '\t' || c = '\n' || c = '\r' || c = '\x0b' || c = '\x0c'

/-- JavaScript `s.trim()`: strip leading and trailing whitespace. -/
def jsTrim (s : String) : String :=
  String.mk (((s.data.dropWhile isJsWhitespace).reverse.dropWhile isJsWhitespace).reverse)

/-- `shouldDrop` from the YAML module: `undefined`, `null`, whitespace-only
strings, empty arrays and empty plain objects are dropped; booleans and
numbers never are. -/
def shouldDrop : JValue → Bool
  | .undef => true
  | .jnull => true
  | .str s => jsTrim s == ""
  | .arr .nil => true
  | .arr _ => false
  | .obj .nil => true
  | .obj _ => false
  | _ => false

/-- One step of the JS `reduce((acc, [key, val]) => { acc[key] = val; ... })`
that rebuilds a cleaned object: assigning to an existing key replaces its
value in place, a new key is appended. -/
def setEntry (l : JProps) (key : String) (v : JValue) : JProps :=
  match l with
  | .nil => .cons key v .nil
  | .cons k w t =>
      if k = key then .cons k v t else .cons k w (setEntry t key v)

/-- The JS `reduce` of the YAML module: fold `setEntry` over the entries in
order, starting from the empty object. -/
def fromEntriesGo (acc : JProps) : JProps → JProps
  | .nil => acc
  | .cons k v t => fromEntriesGo (setEntry acc k v) t

/-- Object rebuilding via `entries.reduce(...)` in `deepClean`. -/
def fromEntries (l : JProps) : JProps :=
  fromEntriesGo .nil l

mutual

/-- `deepClean` from the YAML module: arrays keep their cleaned,
non-droppable items; plain objects keep their cleaned entries whose values
are not droppable, rebuilt by the `reduce`; every other value is returned
unchanged. -/
def deepClean : JValue → JValue
  | .arr l => .arr (deepCleanList l)
  | .obj l => .obj (fromEntries (deepCleanProps l))
  | v => v

/-- `value.map(deepClean).filter(item => !shouldDrop(item))` on array
elements. -/
def deepCleanList : JList → JList
  | .nil => .nil
  | .cons x xs =>
      let c := deepClean x
      if shouldDrop c then deepCleanList xs else .cons c (deepCleanList xs)

/-- `Object.entries(value).map(([key, val]) => [key, deepClean(val)])
.filter(([, val]) => !shouldDrop(val))` on object entries. -/
def deepCleanProps : JProps → JProps
  | .nil => .nil
  | .cons k v t =>
      let c := deepClean v
      if shouldDrop c then deepCleanProps t else .cons k c (deepCleanProps t)

end

/-- `doc.version?.trim() || "0.1"` of `normalizeDocument`: optional chaining
turns an absent, `undefined` or `null` version into `undefined`, which `||`
replaces by `"0.1"`, as it does a whitespace-only trim result; a non-string
version would throw in JS, modelled by `none`. -/
def versionOrDefault : Option JValue → Option String
  | none => some "0.1"
  | some .undef => some "0.1"
  | some .jnull => some "0.1"
  | some (.str s) => some (if jsTrim s = "" then "0.1" else jsTrim s)
  | some _ => none

/-- `normalizeDocument` from the YAML module:
`deepClean({ ...doc, version })` where `version` is
`doc.version?.trim() || "0.1"`.  The object-literal `{ ...doc, version }`
re-binds `version` in place (or appends it when absent).  A document that is
not an object, or whose `version` is not a string, would throw in JS and is
modelled by `none`. -/
def normalizeDocument (doc : JValue) : Option JValue :=
  match doc with
  | .obj l =>
      (versionOrDefault (l.lookup "version")).map
        (fun ver => deepClean (.obj (setEntry l "version" (.str ver))))
  | _ => none

/-! ## Flow execution engine

Modelled from the spec: the flow execution engine (spec sections 4.1, 4.3,
4.4, 4.7, 6 and 7) is not among the repository sources — only its authoring
frontend is — so the interpreter below is built from the specification's
words: a driver loop over a ready set seeded with the entry node, the
uniform all-inputs-satisfied join rule, guard-filtered edge resolution, the
subflow call stack with cycle rejection checked before the child is entered,
and termination through explicit bounds (a computed fuel; exhausting it is a
structural typed failure).  The external collaborators of spec section 6
(model provider, tool registry, condition evaluation) are abstracted into a
deterministic `Oracle`. -/

/-- Modelled from the spec: the external collaborators of section 6 as
deterministic functions — `complete (agent, transcript)` is the model
provider, `choose labels` the LLM-decision classification, `invoke toolId`
the tool registry, `evalCond (condition, bindings)` the guard evaluator. -/
structure Oracle where
  complete : String → List String → String
  choose : List String → String
  invoke : String → String
  evalCond : String → List (String × String) → Bool

/-- Modelled from the spec: the `ExecutionContext` of section 3 — named
output bindings keyed by `"<nodeId>/<outputLabel>"`, the ordered transcript,
the call stack of in-flight flow ids, plus counters of model-provider and
tool invocations used to state the "before any model or tool call" claims. -/
structure ExecState where
  input : String
  values : List (String × String)
  transcript : List String
  callStack : List String
  providerCalls : Nat
  toolCalls : Nat
deriving DecidableEq

/-- Modelled from the spec: the typed failure taxonomy of section 7. -/
inductive FlowError where
  | validation (msg : String)
  | deadEnd
  | cycleDetected (flowId : String)
  | depthExceeded
  | decisionFailed
  | unknownFlow (id : String)
deriving DecidableEq

/-- Modelled from the spec: a successful run — the terminal output value,
the Output node that produced it, and the full transcript (section 4.1). -/
structure RunSuccess where
  output : String
  outputNode : String
  transcript : List String
deriving DecidableEq

/-- Find a flow by id in the document's flow table (spec section 9: flows
are stored by id in a lookup table). -/
def findFlow (doc : FlowDocument) (fid : String) : Option FlowDefinition :=
  doc.flows.find? (fun f => f.id == fid)

/-- Find a node by id within a flow. -/
def findNode (flow : FlowDefinition) (nid : String) : Option FlowNode :=
  flow.nodes.find? (fun n => n.base.id == nid)

/-- Modelled from the spec: the uniform join rule of section 4.1 — a node
may fire once every one of its declared inputs has a bound value. -/
def nodeReady (st : ExecState) (n : FlowNode) : Bool :=
  (declaredInputs n).all (fun i => (st.values.lookup i.from_).isSome)

/-- Pop the first ready node of the frontier (spec section 4.1: "repeatedly
pop a ready node"); frontier ids that name no node of the flow are skipped. -/
def pickReady (flow : FlowDefinition) (st : ExecState) : List String → Option (String × FlowNode)
  | [] => none
  | nid :: rest =>
      match findNode flow nid with
      | some n => if nodeReady st n then some (nid, n) else pickReady flow st rest
      | none => pickReady flow st rest

/-- The output label a node publishes on: its first declared output's label,
or the implicit `"out"` when it declares none. -/
def nodeOutLabel (n : FlowNode) : String :=
  match declaredOutputLabels n with
  | l :: _ => l
  | [] => "out"

/-- Bind a value to `"<nodeId>/<label>"` in the context. -/
def bindValue (st : ExecState) (nid label value : String) : ExecState :=
  { st with values := st.values ++ [(nid ++ "/" ++ label, value)] }

/-- Modelled from the spec: a Merge output is the ordered collection of all
its input values (section 4.4); collected here as the list of bound values
of the declared inputs, joined in declaration order. -/
def joinInputValues (st : ExecState) (n : FlowNode) : String :=
  String.intercalate "\n" ((declaredInputs n).map (fun i => (st.values.lookup i.from_).getD ""))

/-- Modelled from the spec: whether an edge's guard passes (section 4.1 —
an absent guard passes, a present one is evaluated against the context). -/
def guardPasses (oracle : Oracle) (st : ExecState) (e : FlowEdge) : Bool :=
  match e.condition with
  | some c => oracle.evalCond c st.values
  | none => true

/-- Modelled from the spec: rule-strategy decision (section 4.3) — walk the
declared outputs in order, pick the first whose condition evaluates true, a
condition-less output being the catch-all at its position. -/
def decideByRule (oracle : Oracle) (st : ExecState) : List NodeOutput → Option String
  | [] => none
  | o :: rest =>
      match o.condition with
      | some c => if oracle.evalCond c st.values then some o.label else decideByRule oracle st rest
      | none => some o.label

/-- Modelled from the spec: execute one non-terminal, non-subflow node
(sections 4.2-4.6), returning the updated context and the label fired on.
Input binds the task input; Agent asks the provider for a turn; Decision
selects a label by rule or by a classification call; Tool invokes the tool
registry; Merge joins its inputs without any model call; Parallel and Loop
publish the pass-through join of their inputs (their fan-out and iteration
bounds live in the driver's edge resolution and fuel). -/
def execNodeStep (oracle : Oracle) (st : ExecState) (n : FlowNode) :
    Except FlowError (ExecState × String) :=
  let nid := n.base.id
  let label := nodeOutLabel n
  match n.kind with
  | .input => .ok (bindValue st nid label st.input, label)
  | .agent a _ _ _ =>
      let response := oracle.complete a st.transcript
      let st2 := { bindValue st nid label response with
        transcript := st.transcript ++ [response]
        providerCalls := st.providerCalls + 1 }
      .ok (st2, label)
  | .decision _ strategy =>
      match strategy.getD .llm with
      | .rule =>
          match decideByRule oracle st (declaredOutputs n) with
          | some l => .ok (bindValue st nid l st.input, l)
          | none => .error .decisionFailed
      | .llm =>
          let labels := declaredOutputLabels n
          let choice := oracle.choose labels
          let st2 := { bindValue st nid choice choice with
            transcript := st.transcript ++ [choice]
            providerCalls := st.providerCalls + 1 }
          if choice ∈ labels then .ok (st2, choice) else .error .decisionFailed
  | .tool t =>
      let result := oracle.invoke t
      let st2 := { bindValue st nid label result with toolCalls := st.toolCalls + 1 }
      .ok (st2, label)
  | .merge => .ok (bindValue st nid label (joinInputValues st n), label)
  | .parallel _ => .ok (bindValue st nid label (joinInputValues st n), label)
  | .loop _ _ => .ok (bindValue st nid label (joinInputValues st n), label)
  | .output => .error .deadEnd
  | .subflow _ => .error .deadEnd

/-- Successor frontier after a node fired on `label`: the fired node leaves
the frontier and the targets of its outgoing edges on that label whose
guards pass join it (spec section 4.1). -/
def advanceFrontier (oracle : Oracle) (flow : FlowDefinition) (st : ExecState)
    (frontier : List String) (nid label : String) : List String :=
  frontier.erase nid ++
    ((flow.edges.filter (fun e => e.from_ == nid ++ "/" ++ label && guardPasses oracle st e)).map
      (fun e => e.to_))

/-- Carry a child subflow run's transcript and call counters back into the
parent context (spec section 4.7: the child's writes stay local, its
transcript and the audit counters persist). -/
def absorbChild (st child : ExecState) : ExecState :=
  { st with
    transcript := child.transcript
    providerCalls := child.providerCalls
    toolCalls := child.toolCalls }

/-- Modelled from the spec: the driver loop of section 4.1, with the subflow
semantics of section 4.7 inlined.  Each round pops the first ready frontier
node; an Output node ends the run successfully at once (so a success names
exactly one Output node); a subflow node whose target is already on the call
stack fails with a cycle error before any call is made, otherwise the child
flow runs on a fresh child context and its output is bound into the parent;
every other node runs `execNodeStep` and resolves its outgoing edges.  An
empty or never-ready frontier is a dead end; exhausted fuel is the
structural depth bound. -/
def runLoop (doc : FlowDocument) (oracle : Oracle) (flow : FlowDefinition) :
    ExecState → List String → Nat → ExecState × Except FlowError RunSuccess
  | st, _, 0 => (st, .error .depthExceeded)
  | st, frontier, fuel + 1 =>
      match pickReady flow st frontier with
      | none => (st, .error .deadEnd)
      | some (nid, n) =>
          match n.kind with
          | .output =>
              (st, .ok { output := joinInputValues st n, outputNode := nid,
                         transcript := st.transcript })
          | .subflow target =>
              if target ∈ st.callStack then (st, .error (.cycleDetected target))
              else
                match findFlow doc target with
                | none => (st, .error (.unknownFlow target))
                | some child =>
                    let childSt : ExecState :=
                      { input := st.input
                        values := []
                        transcript := st.transcript
                        callStack := target :: st.callStack
                        providerCalls := st.providerCalls
                        toolCalls := st.toolCalls }
                    match runLoop doc oracle child childSt [child.entry] fuel with
                    | (stC, .error e) => (absorbChild st stC, .error e)
                    | (stC, .ok rc) =>
                        let st2 := bindValue (absorbChild st stC) nid (nodeOutLabel n) rc.output
                        runLoop doc oracle flow st2
                          (advanceFrontier oracle flow st2 frontier nid (nodeOutLabel n)) fuel
          | _ =>
              match execNodeStep oracle st n with
              | .error e => (st, .error e)
              | .ok (st2, label) =>
                  runLoop doc oracle flow st2
                    (advanceFrontier oracle flow st2 frontier nid label) fuel

/-- The explicit work bound: enough structural budget for the claims'
scenarios; exhausting it surfaces as the typed `depthExceeded` failure. -/
def fuelFor (doc : FlowDocument) : Nat :=
  ((doc.flows.map (fun f => f.nodes.length)).sum + doc.flows.length + 2) *
    (doc.flows.length + 2)

/-- Modelled from the spec: the engine entry point
`run(flowDocument, flowId, taskInput, options)` of section 6.  An unknown
flow id or a missing entry node is a validation-class failure raised before
execution; otherwise the driver starts with the entry node ready and the
target flow id in-flight on the call stack. -/
def run (doc : FlowDocument) (fid : String) (taskInput : String) (oracle : Oracle) :
    ExecState × Except FlowError RunSuccess :=
  let st0 : ExecState :=
    { input := taskInput, values := [], transcript := [], callStack := [fid]
      providerCalls := 0, toolCalls := 0 }
  match findFlow doc fid with
  | none => (st0, .error (.unknownFlow fid))
  | some flow =>
      match findNode flow flow.entry with
      | none => (st0, .error (.validation "missing entry node"))
      | some _ => runLoop doc oracle flow st0 [flow.entry] (fuelFor doc)

/-! ## Concrete fixtures used by witnesses and counterexamples -/

/-- A deterministic oracle for concrete runs. -/
def tOracle : Oracle :=
  { complete := fun _ _ => "reply", choose := fun ls => ls.headD ""
    invoke := fun _ => "res", evalCond := fun _ _ => true }

/-- A two-node flow: Input `s` feeding Output `end`. -/
def tFlow : FlowDefinition :=
  { id := "main", entry := "s"
    nodes :=
      [ { base := { id := "s", inputs := some [], outputs := some [{ label := "out" }] },
          kind := .input }
      , { base := { id := "end", inputs := some [{ from_ := "s/out" }], outputs := some [] },
          kind := .output } ]
    edges := [{ from_ := "s/out", to_ := "end" }] }

/-- A document holding just `tFlow`. -/
def tDoc : FlowDocument :=
  { version := "0.1", agents := [], tools := [], prompts := [], flows := [tFlow] }

/-- Flow `A`: Input, then a subflow node invoking `B`. -/
def cycFlowA : FlowDefinition :=
  { id := "A", entry := "s"
    nodes :=
      [ { base := { id := "s", inputs := some [], outputs := some [{ label := "out" }] },
          kind := .input }
      , { base := { id := "sub", inputs := some [{ from_ := "s/out" }],
                    outputs := some [{ label := "out" }] },
          kind := .subflow "B" } ]
    edges := [{ from_ := "s/out", to_ := "sub" }] }

/-- Flow `B`: Input, then a subflow node invoking `A` back. -/
def cycFlowB : FlowDefinition :=
  { id := "B", entry := "s2"
    nodes :=
      [ { base := { id := "s2", inputs := some [], outputs := some [{ label := "out" }] },
          kind := .input }
      , { base := { id := "sub2", inputs := some [{ from_ := "s2/out" }],
                    outputs := some [{ label := "out" }] },
          kind := .subflow "A" } ]
    edges := [{ from_ := "s2/out", to_ := "sub2" }] }

/-- A document whose flows `A` and `B` invoke each other: a transitive
self-invocation of `A`. -/
def cycDoc : FlowDocument :=
  { version := "0.1", agents := [], tools := [], prompts := [], flows := [cycFlowA, cycFlowB] }

/-- The flow of the C2 witness: one node `n1` declaring the single output
label `yes`. -/
def c2Flow : FlowDefinition :=
  { id := "f", entry := "n1"
    nodes := [⟨{ id := "n1", outputs := some [{ label := "yes" }] }, .decision none none⟩]
    edges := [] }

/-- The connection of the C2 witness (no `sourceHandle`). -/
def c2Conn : Connection :=
  { source := some "n1", target := some "n2", sourceHandle := none }

/-- The source node of the C2 witness. -/
def c2Node : FlowNode :=
  ⟨{ id := "n1", outputs := some [{ label := "yes" }] }, .decision none none⟩

/-- The flow of the C4 counterexample: node `n1` declares the output label
`"a/b"`, which the editor's free-form label field permits. -/
def c4Flow : FlowDefinition :=
  { id := "f", entry := "n1"
    nodes := [⟨{ id := "n1", outputs := some [{ label := "a/b" }] },
               .agent "" none none none⟩]
    edges := [] }

/-- The connection of the C4 counterexample: its `sourceHandle` is the
declared label `"a/b"`. -/
def c4Conn : Connection :=
  { source := some "n1", target := some "n2", sourceHandle := some "a/b" }

/-- The edge `handleConnect` builds in the C4 counterexample. -/
def c4Edge : FlowEdge :=
  { from_ := "n1/a/b", to_ := "n2" }

/-- The flow `handleConnect` produces in the C4 counterexample. -/
def c4FlowAfter : FlowDefinition :=
  { c4Flow with edges := [c4Edge] }

/-- The flow of the C8 counterexample: nodes `a`, `ab`, `c` and one edge
from `ab` to `c`. -/
def c8Flow : FlowDefinition :=
  { id := "f", entry := "a"
    nodes := [⟨{ id := "a" }, .agent "" none none none⟩,
              ⟨{ id := "ab" }, .agent "" none none none⟩,
              ⟨{ id := "c" }, .output⟩]
    edges := [{ from_ := "ab/out", to_ := "c" }] }

/-- Membership of a value in a JSON array's element list. -/
def JList.Mem (x : JValue) : JList → Prop
  | .nil => False
  | .cons y t => x = y ∨ JList.Mem x t

mutual

/-- No value strictly inside (array element or object property value, at
any depth) is droppable. -/
def cleanInside : JValue → Bool
  | .arr l => cleanInsideList l
  | .obj l => cleanInsideProps l
  | _ => true

/-- Elementwise `cleanInside` plus non-droppability. -/
def cleanInsideList : JList → Bool
  | .nil => true
  | .cons x xs => !shouldDrop x && cleanInside x && cleanInsideList xs

/-- Valuewise `cleanInside` plus non-droppability. -/
def cleanInsideProps : JProps → Bool
  | .nil => true
  | .cons _ v t => !shouldDrop v && cleanInside v && cleanInsideProps t

end

/-- A Merge node with two declared inputs, for the C7 witness. -/
def mergeNode : FlowNode :=
  ⟨{ id := "m", inputs := some [{ from_ := "a/out" }, { from_ := "b/out" }],
     outputs := some [{ label := "out" }] }, .merge⟩

/-- A context in which only the first input of `mergeNode` has a value. -/
def stPartial : ExecState :=
  { input := "", values := [("a/out", "va")], transcript := [], callStack := []
    providerCalls := 0, toolCalls := 0 }

/-- A context in which both inputs of `mergeNode` have values. -/
def stFull : ExecState :=
  { stPartial with values := [("a/out", "va"), ("b/out", "vb")] }

/-- The subflow node of `cycFlowB`, targeting flow `A`. -/
def subNodeB : FlowNode :=
  ⟨{ id := "sub2", inputs := some [{ from_ := "s2/out" }],
     outputs := some [{ label := "out" }] }, .subflow "A"⟩

/-- A context mid-run of flow `B` with `A` already in flight. -/
def stCyc : ExecState :=
  { input := "t", values := [("s2/out", "t")], transcript := [], callStack := ["B", "A"]
    providerCalls := 0, toolCalls := 0 }

/-! ## Claims -/

/-- Claim C3: `createFlowNode` satisfies the spec's terminal arity rules —
an `"input"` node has zero declared inputs and exactly one declared output,
an `"output"` node has at least one declared input and zero declared
outputs. -/
theorem c3_createFlowNode_terminal_arity (id : String) :
    declaredInputs (createFlowNode .input id) = [] ∧
    (declaredOutputs (createFlowNode .input id)).length = 1 ∧
    1 ≤ (declaredInputs (createFlowNode .output id)).length ∧
    declaredOutputs (createFlowNode .output id) = [] := by
  refine ⟨rfl, rfl, ?_, rfl⟩
  simp [createFlowNode, declaredInputs]

/-- Claim C5: `FlowNode` is a closed tagged-variant type — every node's kind
carries exactly one of the nine tags (one constructor of the inductive
`FlowNodeKind`, whose tag function lands in `flowNodeKindTags`), every one
of the nine tags is realised by some node, and the tag list has exactly nine
distinct entries, so no other tag is representable. -/
theorem c5_flowNode_closed_tagged_variant :
    (∀ n : FlowNode, flowNodeKindTag n.kind ∈ flowNodeKindTags) ∧
    (∀ t, t ∈ flowNodeKindTags → ∃ n : FlowNode, flowNodeKindTag n.kind = t) ∧
    flowNodeKindTags.Nodup ∧ flowNodeKindTags.length = 9 := by
  refine ⟨?_, ?_, by decide, rfl⟩
  · intro n
    cases n.kind <;> simp [flowNodeKindTag, flowNodeKindTags]
  · intro t ht
    fin_cases ht
    · exact ⟨⟨{ id := "" }, .input⟩, rfl⟩
    · exact ⟨⟨{ id := "" }, .output⟩, rfl⟩
    · exact ⟨⟨{ id := "" }, .agent "" none none none⟩, rfl⟩
    · exact ⟨⟨{ id := "" }, .decision none none⟩, rfl⟩
    · exact ⟨⟨{ id := "" }, .tool ""⟩, rfl⟩
    · exact ⟨⟨{ id := "" }, .merge⟩, rfl⟩
    · exact ⟨⟨{ id := "" }, .parallel none⟩, rfl⟩
    · exact ⟨⟨{ id := "" }, .loop none none⟩, rfl⟩
    · exact ⟨⟨{ id := "" }, .subflow ""⟩, rfl⟩

/-- Witness for C5 at the `"merge"` tag. -/
theorem c5_flowNode_closed_tagged_variant_witness :
    flowNodeKindTag (FlowNode.mk { id := "" } .merge).kind ∈ flowNodeKindTags ∧
    ∃ n : FlowNode, flowNodeKindTag n.kind = "merge" :=
  ⟨c5_flowNode_closed_tagged_variant.1 _,
   c5_flowNode_closed_tagged_variant.2.1 "merge" (by decide)⟩

/-- Claim C2: for every connection accepted by `handleConnect` whose source
node exists in the flow and whose `sourceHandle`, when present, is one of
the handles the canvas renders for that node (the `Handle` elements of
`FlowNodeComponent` carry exactly the declared output labels as ids,
CanvasArea.tsx lines 264-277), the appended edge's `from` is
`"<sourceId>/<label>"` where the label is the connection's `sourceHandle` if
present, else the source node's first declared output label, else `"out"`;
that label is a declared output of the source node, or the implicit `"out"`
when it declares none. -/
theorem c2_handleConnect_edge_label (flow : FlowDefinition) (c : Connection)
    (s t : String) (node : FlowNode)
    (hs : c.source = some s) (ht : c.target = some t)
    (hnode : flow.nodes.find? (fun n => n.base.id == s) = some node)
    (hhandle : ∀ l, c.sourceHandle = some l → l ∈ declaredOutputLabels node) :
    ∃ lab flow2, handleConnect flow c = some flow2 ∧
      flow2.edges = flow.edges ++ [{ from_ := s ++ "/" ++ lab, to_ := t }] ∧
      lab = (match c.sourceHandle with
             | some l => l
             | none =>
                 match declaredOutputLabels node with
                 | l0 :: _ => l0
                 | [] => "out") ∧
      (lab ∈ declaredOutputLabels node ∨
        (declaredOutputLabels node = [] ∧ lab = "out")) := by
  have hdef : getDefaultOutput flow.nodes s =
      (match declaredOutputLabels node with
       | l0 :: _ => l0
       | [] => "out") := by
    unfold getDefaultOutput
    rw [hnode]
    cases hout : node.base.outputs with
    | none => simp [declaredOutputLabels, declaredOutputs, hout]
    | some os =>
        cases os with
        | nil => simp [declaredOutputLabels, declaredOutputs, hout]
        | cons o rest => simp [declaredOutputLabels, declaredOutputs, hout]
  refine ⟨c.sourceHandle.getD (getDefaultOutput flow.nodes s),
    { flow with edges := flow.edges ++
        [{ from_ := s ++ "/" ++ c.sourceHandle.getD (getDefaultOutput flow.nodes s),
           to_ := t }] }, ?_, rfl, ?_, ?_⟩
  · simp [handleConnect, hs, ht]
  · cases hsh : c.sourceHandle with
    | some l => simp
    | none => simpa using hdef
  · cases hsh : c.sourceHandle with
    | some l =>
        simp only [Option.getD_some]
        exact Or.inl (hhandle l hsh)
    | none =>
        rw [Option.getD_none, hdef]
        cases hlab : declaredOutputLabels node with
        | nil => exact Or.inr ⟨rfl, rfl⟩
        | cons l0 rest => exact Or.inl (List.mem_cons_self l0 rest)

/-- Witness for C2 at a concrete flow and connection. -/
theorem c2_handleConnect_edge_label_witness :
    ∃ lab flow2, handleConnect c2Flow c2Conn = some flow2 ∧
      (lab ∈ declaredOutputLabels c2Node ∨
        (declaredOutputLabels c2Node = [] ∧ lab = "out")) := by
  obtain ⟨lab, flow2, h1, _, _, h4⟩ :=
    c2_handleConnect_edge_label c2Flow c2Conn "n1" "n2" c2Node rfl rfl (by decide)
      (fun l hl => nomatch hl)
  exact ⟨lab, flow2, h1, h4⟩

/-- Splitting a separator-free chunk produces a single piece. -/
theorem jsSplitCharGo_no_sep (c : Char) (xs : List Char) (acc : List Char)
    (h : c ∉ xs) : jsSplitCharGo c xs acc = [String.mk (acc.reverse ++ xs)] := by
  induction xs generalizing acc with
  | nil => simp [jsSplitCharGo]
  | cons x xs ih =>
      rw [List.mem_cons, not_or] at h
      rw [jsSplitCharGo, if_neg (fun hxc => h.1 hxc.symm), ih (x :: acc) h.2]
      simp

/-- Splitting at the first separator occurrence cuts off the leading
chunk. -/
theorem jsSplitCharGo_sep (c : Char) (a b acc : List Char) (h : c ∉ a) :
    jsSplitCharGo c (a ++ c :: b) acc =
      String.mk (acc.reverse ++ a) :: jsSplitCharGo c b [] := by
  induction a generalizing acc with
  | nil => simp [jsSplitCharGo]
  | cons x a ih =>
      rw [List.mem_cons, not_or] at h
      rw [List.cons_append, jsSplitCharGo, if_neg (fun hxc => h.1 hxc.symm),
        ih (x :: acc) h.2]
      simp

/-- Splitting `s ++ "/" ++ l` at `'/'` recovers `[s, l]` when neither part
contains a slash. -/
theorem jsSplitChar_append (s l : String) (hs : ¬ '/' ∈ s.data)
    (hl : ¬ '/' ∈ l.data) : jsSplitChar '/' (s ++ "/" ++ l) = [s, l] := by
  have hdata : (s ++ "/" ++ l).data = s.data ++ '/' :: l.data := by
    simp [String.data_append]
  rw [jsSplitChar, hdata, jsSplitCharGo_sep '/' s.data l.data [] hs,
    jsSplitCharGo_no_sep '/' l.data [] hl]
  simp

/-- Claim C4 (amended): an edge whose `from` was built by `handleConnect` as
`"<sourceId>/<label>"` round-trips through `mapEdge` — the edge source is the
node id and the `sourceHandle` is the label — provided neither the node id
nor the label contains a `"/"`; a label containing `"/"` breaks the
round-trip (see the counterexample). -/
theorem c4_edge_from_roundtrip (s l t : String) (lab : Option String) (idx : Nat)
    (hs : ¬ '/' ∈ s.data) (hl : ¬ '/' ∈ l.data) :
    (mapEdge idx { from_ := s ++ "/" ++ l, to_ := t, label := lab }).source = s ∧
    (mapEdge idx { from_ := s ++ "/" ++ l, to_ := t, label := lab }).sourceHandle =
      some l := by
  unfold mapEdge
  rw [jsSplitChar_append s l hs hl]
  exact ⟨rfl, rfl⟩

/-- Witness for C4 (amended) at `"n1" ++ "/" ++ "out"`. -/
theorem c4_edge_from_roundtrip_witness :
    (mapEdge 0 { from_ := "n1/out", to_ := "n2", label := none }).source = "n1" ∧
    (mapEdge 0 { from_ := "n1/out", to_ := "n2", label := none }).sourceHandle =
      some "out" :=
  c4_edge_from_roundtrip "n1" "out" "n2" none 0 (by decide) (by decide)

/-- Counterexample to C4 as stated: `handleConnect` builds the edge
`from = "n1/a/b"` from node id `"n1"` (slash-free) and the declared output
label `"a/b"`, but `mapEdge` recovers `sourceHandle = "a"`, not `"a/b"` —
splitting at `"/"` cuts at every slash, so the round-trip fails for labels
containing `"/"`. -/
theorem c4_counterexample :
    handleConnect c4Flow c4Conn = some c4FlowAfter ∧
    (∃ n ∈ c4Flow.nodes, "a/b" ∈ declaredOutputLabels n) ∧
    (mapEdge 0 { from_ := "n1/a/b", to_ := "n2" }).source = "n1" ∧
    (mapEdge 0 { from_ := "n1/a/b", to_ := "n2" }).sourceHandle = some "a" ∧
    some "a" ≠ some "a/b" := by decide

/-- Claim C8 (amended): `removeNode flow X` keeps exactly the nodes whose id
differs from `X`, and keeps exactly the edges neither of whose endpoint
strings has `X` as a string prefix.  (The source tests `startsWith`, not
node identity: edges of any node whose id extends `X` are deleted too — see
the counterexample; when no other node id has `X` as a prefix this coincides
with deleting exactly the edges incident to `X`.) -/
theorem c8_removeNode_filters (flow : FlowDefinition) (nodeId : String) :
    (∀ n : FlowNode,
      n ∈ (removeNode flow nodeId).nodes ↔ n ∈ flow.nodes ∧ n.base.id ≠ nodeId) ∧
    (∀ e : FlowEdge,
      e ∈ (removeNode flow nodeId).edges ↔
        e ∈ flow.edges ∧ jsStartsWith e.from_ nodeId = false ∧
          jsStartsWith e.to_ nodeId = false) := by
  constructor
  · intro n
    simp [removeNode, List.mem_filter, bne_iff_ne]
  · intro e
    simp [removeNode, List.mem_filter, Bool.and_eq_true, Bool.not_eq_true',
      and_assoc]

/-- Counterexample to C8 as stated: removing node `"a"` also deletes the
edge from `"ab"` to `"c"`, although neither endpoint node is `"a"` — the
source's `startsWith` prefix test fires on `"ab/out"`. -/
theorem c8_counterexample :
    (removeNode c8Flow "a").edges = [] ∧
    ({ from_ := "ab/out", to_ := "c" } : FlowEdge) ∈ c8Flow.edges ∧
    (mapEdge 0 { from_ := "ab/out", to_ := "c" }).source = "ab" ∧
    ({ from_ := "ab/out", to_ := "c" } : FlowEdge).to_ = "c" ∧
    "ab" ≠ "a" ∧ "c" ≠ "a" := by decide

/-- Lookup across an entry-list concatenation: the left side wins. -/
theorem JProps.lookup_append : ∀ (a b : JProps) (k : String),
    (a.append b).lookup k =
      match a.lookup k with
      | some v => some v
      | none => b.lookup k
  | .nil, b, k => by simp [JProps.append, JProps.lookup]
  | .cons k2 v t, b, k => by
      by_cases h : k2 = k <;>
        simp [JProps.append, JProps.lookup, h, JProps.lookup_append t b k]

/-- Lookup in the overridden-left part of a spread. -/
theorem lookup_spreadLeft (b : JProps) : ∀ (a : JProps) (k : String),
    (spreadLeft b a).lookup k =
      match a.lookup k with
      | some v => some ((b.lookup k).getD v)
      | none => none
  | .nil, k => by simp [spreadLeft, JProps.lookup]
  | .cons k2 v t, k => by
      by_cases h : k2 = k
      · subst h; simp [spreadLeft, JProps.lookup]
      · simp [spreadLeft, JProps.lookup, h, lookup_spreadLeft b t k]

/-- Lookup in the fresh-right part of a spread: `none` for keys the left
side binds, the right side's binding otherwise. -/
theorem lookup_spreadRight (a : JProps) : ∀ (b : JProps) (k : String),
    (spreadRight a b).lookup k =
      match a.lookup k with
      | some _ => none
      | none => b.lookup k
  | .nil, k => by cases a.lookup k <;> simp [spreadRight, JProps.lookup]
  | .cons k2 v t, k => by
      have ih := lookup_spreadRight a t k
      by_cases h : k2 = k
      · subst h
        cases ha : a.lookup k2 with
        | some w => simp [spreadRight, JProps.lookup, ha, Option.isSome] at ih ⊢; exact ih
        | none => simp [spreadRight, JProps.lookup, ha, Option.isSome]
      · cases ha : a.lookup k2 with
        | some w => simp [spreadRight, JProps.lookup, ha, Option.isSome, h, ih]
        | none => simp [spreadRight, JProps.lookup, ha, Option.isSome, h, ih]

/-- Lookup through a JS object spread `{...a, ...b}`: `b`'s binding wins,
else `a`'s. -/
theorem lookup_spreadMerge (a b : JProps) (k : String) :
    (spreadMerge a b).lookup k =
      match b.lookup k with
      | some v => some v
      | none => a.lookup k := by
  rw [spreadMerge, JProps.lookup_append, lookup_spreadLeft, lookup_spreadRight]
  cases ha : a.lookup k <;> cases hb : b.lookup k <;> simp [ha, hb]

/-- `optProp` is invisible to lookups of a different key. -/
theorem lookup_optProp_ne (key : String) (v : Option JValue) (rest : JProps)
    (k2 : String) (h : ¬ key = k2) : (optProp key v rest).lookup k2 = rest.lookup k2 := by
  cases v <;> simp [optProp, JProps.lookup, h]

/-- The kind fields of a node never bind `"id"`. -/
theorem kindFields_lookup_id (k : FlowNodeKind) : (kindFields k).lookup "id" = none := by
  cases k with
  | agent a prompt tools params =>
      cases prompt <;> cases tools <;> cases params <;>
        simp [kindFields, optProp, JProps.lookup]
  | decision prompt strategy =>
      cases prompt <;> cases strategy <;> simp [kindFields, optProp, JProps.lookup]
  | parallel converge => cases converge <;> simp [kindFields, optProp, JProps.lookup]
  | loop maxIter condition =>
      cases maxIter <;> cases condition <;> simp [kindFields, optProp, JProps.lookup]
  | _ => simp [kindFields, JProps.lookup]

/-- The base fields of a node bind `"id"` to the node id. -/
theorem baseFields_lookup_id (b : NodeBase) :
    (baseFields b).lookup "id" = some (.str b.id) := by
  simp [baseFields, JProps.lookup]

/-- The flattened node object still binds `"id"` to the node id. -/
theorem flattenNode_lookup_id (n : FlowNode) :
    (flattenNode n).lookup "id" = some (.str n.base.id) := by
  rw [flattenNode, lookup_spreadMerge, kindFields_lookup_id, baseFields_lookup_id]

/-- Claim C9: the payload built by `apiClient.executeFlow` preserves the
document's `agents`, `tools`, `prompts` (and `version`, `metadata`)
unchanged, and preserves each flow's `id`, `entry` and `edges`; each flow's
nodes are replaced, one for one, by flattened objects whose bindings are the
union of the node's base fields and kind fields (the kind's binding winning
on a shared key, as JS spread does) and which still bind `"id"` to the
node's id. -/
theorem c9_executeFlow_payload_preserves (doc : FlowDocument) :
    (executeFlowPayload doc).version = doc.version ∧
    (executeFlowPayload doc).metadata = doc.metadata ∧
    (executeFlowPayload doc).agents = doc.agents ∧
    (executeFlowPayload doc).tools = doc.tools ∧
    (executeFlowPayload doc).prompts = doc.prompts ∧
    List.Forall₂ (fun (fd : FlowDefinition) (bf : BackendFlow) =>
        bf.id = fd.id ∧ bf.entry = fd.entry ∧ bf.edges = fd.edges ∧
        bf.nodes.length = fd.nodes.length ∧
        List.Forall₂ (fun (n : FlowNode) (flat : JProps) =>
            flat.lookup "id" = some (.str n.base.id) ∧
            ∀ k, flat.lookup k =
              (match (kindFields n.kind).lookup k with
               | some v => some v
               | none => (baseFields n.base).lookup k))
          fd.nodes bf.nodes)
      doc.flows (executeFlowPayload doc).flows := by
  refine ⟨rfl, rfl, rfl, rfl, rfl, ?_⟩
  rw [executeFlowPayload, List.forall₂_map_right_iff]
  rw [List.forall₂_same]
  intro fd _
  refine ⟨rfl, rfl, rfl, by simp, ?_⟩
  rw [List.forall₂_map_right_iff, List.forall₂_same]
  intro n _
  exact ⟨flattenNode_lookup_id n, fun k => lookup_spreadMerge (baseFields n.base) (kindFields n.kind) k⟩

/-- An entry of `setEntry l key val` is an entry of `l` or the new pair. -/
theorem mem_setEntry : ∀ (l : JProps) (key : String) (val : JValue)
    (k : String) (v : JValue),
    JProps.Mem k v (setEntry l key val) → JProps.Mem k v l ∨ (k = key ∧ v = val)
  | .nil, key, val, k, v => by
      intro h
      rcases h with h | h
      · exact Or.inr h
      · exact absurd h id
  | .cons k2 w t, key, val, k, v => by
      intro h
      rw [setEntry] at h
      by_cases hk : k2 = key
      · rw [if_pos hk] at h
        rcases h with ⟨h1, h2⟩ | h
        · exact Or.inr ⟨h1.trans hk, h2⟩
        · exact Or.inl (Or.inr h)
      · rw [if_neg hk] at h
        rcases h with h | h
        · exact Or.inl (Or.inl h)
        · rcases mem_setEntry t key val k v h with h2 | h2
          · exact Or.inl (Or.inr h2)
          · exact Or.inr h2

/-- An entry of the folded object comes from the accumulator or the input. -/
theorem mem_fromEntriesGo : ∀ (l acc : JProps) (k : String) (v : JValue),
    JProps.Mem k v (fromEntriesGo acc l) → JProps.Mem k v acc ∨ JProps.Mem k v l
  | .nil, acc, k, v => fun h => Or.inl h
  | .cons k2 w t, acc, k, v => by
      intro h
      rcases mem_fromEntriesGo t (setEntry acc k2 w) k v h with h2 | h2
      · rcases mem_setEntry acc k2 w k v h2 with h3 | h3
        · exact Or.inl h3
        · exact Or.inr (Or.inl h3)
      · exact Or.inr (Or.inr h2)

/-- An entry of `fromEntries l` is an entry of `l`. -/
theorem mem_fromEntries (l : JProps) (k : String) (v : JValue)
    (h : JProps.Mem k v (fromEntries l)) : JProps.Mem k v l := by
  rcases mem_fromEntriesGo l .nil k v h with h2 | h2
  · exact absurd h2 id
  · exact h2

/-- Keys after `setEntry`: unchanged when the key is bound, appended
otherwise. -/
theorem keys_setEntry : ∀ (l : JProps) (key : String) (val : JValue),
    (setEntry l key val).keys =
      if key ∈ l.keys then l.keys else l.keys ++ [key]
  | .nil, key, val => by simp [setEntry, JProps.keys]
  | .cons k2 w t, key, val => by
      by_cases hk : k2 = key
      · subst hk
        simp [setEntry, JProps.keys]
      · rw [setEntry, if_neg hk]
        have := keys_setEntry t key val
        by_cases hmem : key ∈ t.keys
        · simp [JProps.keys, this, hmem, Ne.symm hk]
        · simp [JProps.keys, this, hmem, Ne.symm hk]

/-- `setEntry` preserves key distinctness. -/
theorem keys_nodup_setEntry (l : JProps) (key : String) (val : JValue)
    (h : l.keys.Nodup) : (setEntry l key val).keys.Nodup := by
  rw [keys_setEntry]
  by_cases hmem : key ∈ l.keys
  · rwa [if_pos hmem]
  · rw [if_neg hmem]
    simp [List.nodup_append, h, hmem, List.disjoint_singleton]

/-- The folded object has distinct keys whenever the accumulator does. -/
theorem keys_nodup_fromEntriesGo : ∀ (l acc : JProps), acc.keys.Nodup →
    (fromEntriesGo acc l).keys.Nodup
  | .nil, _ => fun h => h
  | .cons k2 w t, acc => fun h =>
      keys_nodup_fromEntriesGo t (setEntry acc k2 w) (keys_nodup_setEntry acc k2 w h)

/-- The rebuilt object always has distinct keys. -/
theorem keys_nodup_fromEntries (l : JProps) : (fromEntries l).keys.Nodup :=
  keys_nodup_fromEntriesGo l .nil List.nodup_nil

/-- Appending the empty entry list is the identity. -/
theorem JProps.append_nil : ∀ l : JProps, l.append .nil = l
  | .nil => rfl
  | .cons k v t => by rw [JProps.append, JProps.append_nil t]

/-- Entry-list append is associative. -/
theorem JProps.append_assoc : ∀ a b c : JProps,
    (a.append b).append c = a.append (b.append c)
  | .nil, _, _ => rfl
  | .cons k v t, b, c => by
      rw [JProps.append, JProps.append, JProps.append, JProps.append_assoc t b c]

/-- Keys of an append. -/
theorem JProps.keys_append : ∀ a b : JProps, (a.append b).keys = a.keys ++ b.keys
  | .nil, b => rfl
  | .cons k v t, b => by
      rw [JProps.append, JProps.keys, JProps.keys, JProps.keys_append t b,
        List.cons_append]

/-- Setting an unbound key appends the entry. -/
theorem setEntry_of_not_mem : ∀ (l : JProps) (key : String) (val : JValue),
    ¬ key ∈ l.keys → setEntry l key val = l.append (.cons key val .nil)
  | .nil, key, val => fun _ => rfl
  | .cons k2 w t, key, val => by
      intro h
      rw [JProps.keys, List.mem_cons, not_or] at h
      rw [setEntry, if_neg (fun hk => h.1 hk.symm), JProps.append,
        setEntry_of_not_mem t key val h.2]

/-- Folding entries with distinct (overall) keys concatenates them. -/
theorem fromEntriesGo_of_nodup : ∀ (l acc : JProps),
    (acc.append l).keys.Nodup → fromEntriesGo acc l = acc.append l
  | .nil, acc => fun _ => by rw [fromEntriesGo, JProps.append_nil]
  | .cons k2 w t, acc => by
      intro h
      have hkeys : (acc.append (.cons k2 w t)).keys = acc.keys ++ k2 :: t.keys := by
        rw [JProps.keys_append, JProps.keys]
      rw [hkeys] at h
      have hk2 : ¬ k2 ∈ acc.keys := by
        rw [List.nodup_append] at h
        intro hmem
        exact h.2.2 hmem (List.mem_cons_self k2 t.keys)
      rw [fromEntriesGo, setEntry_of_not_mem acc k2 w hk2]
      have hassoc : (acc.append (.cons k2 w .nil)).append t = acc.append (.cons k2 w t) := by
        rw [JProps.append_assoc]
        rfl
      rw [fromEntriesGo_of_nodup t (acc.append (.cons k2 w .nil)) (by rw [hassoc, hkeys]; exact h),
        hassoc]

/-- Rebuilding an object with distinct keys is the identity. -/
theorem fromEntries_of_nodup (l : JProps) (h : l.keys.Nodup) : fromEntries l = l :=
  fromEntriesGo_of_nodup l .nil (by rw [show JProps.append .nil l = l from rfl]; exact h)

/-- A list all of whose elements are non-droppable fixed points of
`deepClean` cleans to itself. -/
theorem deepCleanList_fixed : ∀ l : JList,
    (∀ x, JList.Mem x l → shouldDrop x = false ∧ deepClean x = x) →
    deepCleanList l = l
  | .nil => fun _ => rfl
  | .cons y ys => by
      intro h
      have hy := h y (Or.inl rfl)
      rw [deepCleanList]
      simp only [hy.2, hy.1, Bool.false_eq_true, if_false]
      rw [deepCleanList_fixed ys (fun x hx => h x (Or.inr hx))]

/-- An entry list all of whose values are non-droppable fixed points of
`deepClean` cleans to itself. -/
theorem deepCleanProps_fixed : ∀ l : JProps,
    (∀ k v, JProps.Mem k v l → shouldDrop v = false ∧ deepClean v = v) →
    deepCleanProps l = l
  | .nil => fun _ => rfl
  | .cons k2 w t => by
      intro h
      have hw := h k2 w (Or.inl ⟨rfl, rfl⟩)
      rw [deepCleanProps]
      simp only [hw.2, hw.1, Bool.false_eq_true, if_false]
      rw [deepCleanProps_fixed t (fun k v hv => h k v (Or.inr hv))]

mutual

/-- `deepClean` is idempotent. -/
theorem deepClean_idem : ∀ v : JValue, deepClean (deepClean v) = deepClean v
  | .undef => rfl
  | .jnull => rfl
  | .bool _ => rfl
  | .num _ => rfl
  | .str _ => rfl
  | .arr l => by
      rw [deepClean, deepClean,
        deepCleanList_fixed (deepCleanList l) (fun x hx => deepCleanList_vals l x hx)]
  | .obj l => by
      rw [deepClean, deepClean,
        deepCleanProps_fixed (fromEntries (deepCleanProps l))
          (fun k v hm => deepCleanProps_vals l k v (mem_fromEntries _ k v hm)),
        fromEntries_of_nodup _ (keys_nodup_fromEntries _)]

/-- Every element of a cleaned array is a non-droppable fixed point. -/
theorem deepCleanList_vals : ∀ (l : JList) (x : JValue),
    JList.Mem x (deepCleanList l) → shouldDrop x = false ∧ deepClean x = x
  | .nil, x => fun h => absurd h id
  | .cons y ys, x => by
      intro h
      rw [deepCleanList] at h
      by_cases hd : shouldDrop (deepClean y) = true
      · rw [if_pos hd] at h
        exact deepCleanList_vals ys x h
      · rw [if_neg hd] at h
        rcases h with h | h
        · subst h
          exact ⟨Bool.not_eq_true _ ▸ Bool.of_not_eq_true hd, deepClean_idem y⟩
        · exact deepCleanList_vals ys x h

/-- Every value of a cleaned entry list is a non-droppable fixed point. -/
theorem deepCleanProps_vals : ∀ (l : JProps) (k : String) (v : JValue),
    JProps.Mem k v (deepCleanProps l) → shouldDrop v = false ∧ deepClean v = v
  | .nil, k, v => fun h => absurd h id
  | .cons k2 w t, k, v => by
      intro h
      rw [deepCleanProps] at h
      by_cases hd : shouldDrop (deepClean w) = true
      · rw [if_pos hd] at h
        exact deepCleanProps_vals t k v h
      · rw [if_neg hd] at h
        rcases h with ⟨_, h2⟩ | h
        · subst h2
          exact ⟨Bool.not_eq_true _ ▸ Bool.of_not_eq_true hd, deepClean_idem w⟩
        · exact deepCleanProps_vals t k v h

end

/-- A list whose members are all non-droppable and internally clean is
`cleanInsideList`. -/
theorem cleanInsideList_of_mem : ∀ l : JList,
    (∀ x, JList.Mem x l → shouldDrop x = false ∧ cleanInside x = true) →
    cleanInsideList l = true
  | .nil => fun _ => rfl
  | .cons y ys => by
      intro h
      have hy := h y (Or.inl rfl)
      rw [cleanInsideList, hy.1, hy.2,
        cleanInsideList_of_mem ys (fun x hx => h x (Or.inr hx))]
      rfl

/-- An entry list whose values are all non-droppable and internally clean
is `cleanInsideProps`. -/
theorem cleanInsideProps_of_mem : ∀ l : JProps,
    (∀ k v, JProps.Mem k v l → shouldDrop v = false ∧ cleanInside v = true) →
    cleanInsideProps l = true
  | .nil => fun _ => rfl
  | .cons k2 w t => by
      intro h
      have hw := h k2 w (Or.inl ⟨rfl, rfl⟩)
      rw [cleanInsideProps, hw.1, hw.2,
        cleanInsideProps_of_mem t (fun k v hv => h k v (Or.inr hv))]
      rfl

mutual

/-- The result of `deepClean` has no droppable value strictly inside. -/
theorem cleanInside_deepClean : ∀ v : JValue, cleanInside (deepClean v) = true
  | .undef => rfl
  | .jnull => rfl
  | .bool _ => rfl
  | .num _ => rfl
  | .str _ => rfl
  | .arr l => by
      rw [deepClean]
      exact cleanInsideList_of_mem (deepCleanList l)
        (fun x hx => cleanInside_deepCleanList_mem l x hx)
  | .obj l => by
      rw [deepClean]
      exact cleanInsideProps_of_mem (fromEntries (deepCleanProps l))
        (fun k v hm => cleanInside_deepCleanProps_mem l k v (mem_fromEntries _ k v hm))

/-- Elements of a cleaned array are non-droppable and internally clean. -/
theorem cleanInside_deepCleanList_mem : ∀ (l : JList) (x : JValue),
    JList.Mem x (deepCleanList l) → shouldDrop x = false ∧ cleanInside x = true
  | .nil, x => fun h => absurd h id
  | .cons y ys, x => by
      intro h
      rw [deepCleanList] at h
      by_cases hd : shouldDrop (deepClean y) = true
      · rw [if_pos hd] at h
        exact cleanInside_deepCleanList_mem ys x h
      · rw [if_neg hd] at h
        rcases h with h | h
        · subst h
          exact ⟨Bool.not_eq_true _ ▸ Bool.of_not_eq_true hd, cleanInside_deepClean y⟩
        · exact cleanInside_deepCleanList_mem ys x h

/-- Values of a cleaned entry list are non-droppable and internally clean. -/
theorem cleanInside_deepCleanProps_mem : ∀ (l : JProps) (k : String) (v : JValue),
    JProps.Mem k v (deepCleanProps l) → shouldDrop v = false ∧ cleanInside v = true
  | .nil, k, v => fun h => absurd h id
  | .cons k2 w t, k, v => by
      intro h
      rw [deepCleanProps] at h
      by_cases hd : shouldDrop (deepClean w) = true
      · rw [if_pos hd] at h
        exact cleanInside_deepCleanProps_mem t k v h
      · rw [if_neg hd] at h
        rcases h with ⟨_, h2⟩ | h
        · subst h2
          exact ⟨Bool.not_eq_true _ ▸ Bool.of_not_eq_true hd, cleanInside_deepClean w⟩
        · exact cleanInside_deepCleanProps_mem t k v h

end

/-- `jsTrim` in terms of `dropWhile` and `rdropWhile`. -/
theorem jsTrim_data (s : String) :
    (jsTrim s).data = (s.data.dropWhile isJsWhitespace).rdropWhile isJsWhitespace := rfl

/-- `dropWhile` fixes every prefix of a list it fixes. -/
theorem dropWhile_eq_self_of_IsPrefix {α : Type} (p : α → Bool) (v u : List α)
    (hpre : v <+: u) (hu : u.dropWhile p = u) : v.dropWhile p = v := by
  cases v with
  | nil => rfl
  | cons x v2 =>
      obtain ⟨t, ht⟩ := hpre
      rw [← ht] at hu
      rw [List.cons_append, List.dropWhile_cons] at hu
      by_cases hx : p x = true
      · rw [if_pos hx] at hu
        have hlen : (List.dropWhile p (v2 ++ t)).length = (v2 ++ t).length + 1 := by
          rw [hu]
          simp
        have hle := (List.dropWhile_suffix (l := v2 ++ t) p).length_le
        omega
      · rw [List.dropWhile_cons, if_neg hx]

/-- JavaScript `trim` is idempotent. -/
theorem jsTrim_idem (s : String) : jsTrim (jsTrim s) = jsTrim s := by
  apply String.ext
  rw [jsTrim_data (jsTrim s), jsTrim_data s]
  rw [dropWhile_eq_self_of_IsPrefix isJsWhitespace _ _
    (List.rdropWhile_prefix isJsWhitespace _) (List.dropWhile_idempotent _ _)]
  exact List.rdropWhile_idempotent isJsWhitespace _

/-- A successfully resolved version string is already trimmed and nonempty. -/
theorem versionOrDefault_some (o : Option JValue) (ver : String)
    (h : versionOrDefault o = some ver) : jsTrim ver = ver ∧ ver ≠ "" := by
  have hdefault : jsTrim "0.1" = "0.1" ∧ "0.1" ≠ ("" : String) := by decide
  match o, h with
  | none, h => exact Option.some.inj h ▸ hdefault
  | some .undef, h => exact Option.some.inj h ▸ hdefault
  | some .jnull, h => exact Option.some.inj h ▸ hdefault
  | some (.str s), h =>
      rw [versionOrDefault] at h
      by_cases ht : jsTrim s = ""
      · rw [if_pos ht] at h
        exact Option.some.inj h ▸ hdefault
      · rw [if_neg ht] at h
        rw [← Option.some.inj h]
        exact ⟨jsTrim_idem s, ht⟩

/-- `setEntry` binds its key to its value. -/
theorem setEntry_lookup : ∀ (l : JProps) (key : String) (val : JValue),
    (setEntry l key val).lookup key = some val
  | .nil, key, val => by simp [setEntry, JProps.lookup]
  | .cons k2 w t, key, val => by
      by_cases hk : k2 = key
      · rw [setEntry, if_pos hk, JProps.lookup, if_pos hk]
      · rw [setEntry, if_neg hk, JProps.lookup, if_neg hk, setEntry_lookup t key val]

/-- Re-binding a key to its current first value changes nothing. -/
theorem setEntry_self : ∀ (l : JProps) (key : String) (val : JValue),
    l.lookup key = some val → setEntry l key val = l
  | .nil, key, val => by simp [JProps.lookup]
  | .cons k2 w t, key, val => by
      intro h
      rw [JProps.lookup] at h
      by_cases hk : k2 = key
      · rw [if_pos hk] at h
        rw [setEntry, if_pos hk, Option.some.inj h]
      · rw [if_neg hk] at h
        rw [setEntry, if_neg hk, setEntry_self t key val h]

/-- Cleaning preserves the first binding of a key whose cleaned value
survives. -/
theorem deepCleanProps_lookup : ∀ (l : JProps) (key : String) (v : JValue),
    l.lookup key = some v → shouldDrop (deepClean v) = false →
    (deepCleanProps l).lookup key = some (deepClean v)
  | .nil, key, v => by simp [JProps.lookup]
  | .cons k2 w t, key, v => by
      intro h hd
      rw [JProps.lookup] at h
      by_cases hk : k2 = key
      · rw [if_pos hk] at h
        rw [deepCleanProps, Option.some.inj h, hd]
        simp only [Bool.false_eq_true, if_false]
        rw [JProps.lookup, if_pos hk]
      · rw [if_neg hk] at h
        rw [deepCleanProps]
        by_cases hdw : shouldDrop (deepClean w) = true
        · rw [if_pos hdw]
          exact deepCleanProps_lookup t key v h hd
        · rw [if_neg hdw, JProps.lookup, if_neg hk]
          exact deepCleanProps_lookup t key v h hd

/-- Cleaning only removes keys. -/
theorem keys_deepCleanProps_sublist : ∀ l : JProps,
    (deepCleanProps l).keys.Sublist l.keys
  | .nil => List.Sublist.refl []
  | .cons k2 w t => by
      rw [deepCleanProps]
      by_cases hd : shouldDrop (deepClean w) = true
      · rw [if_pos hd, JProps.keys]
        exact (keys_deepCleanProps_sublist t).cons k2
      · rw [if_neg hd, JProps.keys, JProps.keys]
        exact (keys_deepCleanProps_sublist t).cons₂ k2

/-- `normalizeDocument` is idempotent on documents with distinct top-level
keys. -/
theorem normalizeDocument_idem (l : JProps) (d2 : JValue)
    (hkeys : l.keys.Nodup) (h : normalizeDocument (.obj l) = some d2) :
    normalizeDocument d2 = some d2 := by
  rw [normalizeDocument] at h
  cases hv : versionOrDefault (l.lookup "version") with
  | none => rw [hv] at h; exact absurd h (by simp)
  | some ver =>
      rw [hv] at h
      simp only [Option.map] at h
      obtain ⟨htrim, hne⟩ := versionOrDefault_some _ _ hv
      have hd2 := Option.some.inj h
      have hdropver : shouldDrop (deepClean (.str ver)) = false := by
        show (jsTrim ver == "") = false
        rw [htrim]
        exact beq_eq_false_iff_ne.2 hne
      have hl2keys : (setEntry l "version" (.str ver)).keys.Nodup :=
        keys_nodup_setEntry l "version" (.str ver) hkeys
      have hcleankeys : (deepCleanProps (setEntry l "version" (.str ver))).keys.Nodup :=
        hl2keys.sublist (keys_deepCleanProps_sublist _)
      have hfe : fromEntries (deepCleanProps (setEntry l "version" (.str ver))) =
          deepCleanProps (setEntry l "version" (.str ver)) :=
        fromEntries_of_nodup _ hcleankeys
      have hobj : deepClean (.obj (setEntry l "version" (.str ver))) =
          .obj (deepCleanProps (setEntry l "version" (.str ver))) := by
        rw [deepClean, hfe]
      have hd2obj : d2 = .obj (deepCleanProps (setEntry l "version" (.str ver))) := by
        rw [← hd2, hobj]
      have hlookm : (deepCleanProps (setEntry l "version" (.str ver))).lookup "version" =
          some (.str ver) :=
        deepCleanProps_lookup _ "version" (.str ver)
          (setEntry_lookup l "version" (.str ver)) hdropver
      have hvv : versionOrDefault (some (.str ver)) = some ver := by
        rw [versionOrDefault, if_neg (htrim.symm ▸ hne), htrim]
      rw [hd2obj, normalizeDocument, hlookm, hvv]
      simp only [Option.map]
      rw [setEntry_self _ "version" (.str ver) hlookm]
      have hidem := deepClean_idem (.obj (setEntry l "version" (.str ver)))
      rw [hobj] at hidem
      rw [hidem]

/-- Claim C10 (amended): `deepClean` is idempotent, and no value strictly
inside its result — array element or object property value, at any depth —
is `undefined`, `null`, a whitespace-only string, an empty array or an empty
plain object; the root value itself is exempt (`deepClean` returns non-array
non-object roots unchanged and can itself produce an emptied array or
object, see the counterexample).  Consequently `normalizeDocument` applied
twice equals `normalizeDocument` applied once, for documents with distinct
top-level keys. -/
theorem c10_deepClean_idempotent_and_clean :
    (∀ v, deepClean (deepClean v) = deepClean v) ∧
    (∀ v, cleanInside (deepClean v) = true) ∧
    (∀ (l : JProps) (d2 : JValue), l.keys.Nodup →
      normalizeDocument (.obj l) = some d2 → normalizeDocument d2 = some d2) :=
  ⟨deepClean_idem, cleanInside_deepClean,
   fun l d2 h1 h2 => normalizeDocument_idem l d2 h1 h2⟩

/-- Witness for C10 at a one-key document with a whitespace-only version. -/
theorem c10_deepClean_idempotent_and_clean_witness :
    deepClean (deepClean (.obj (.cons "a" .jnull .nil))) =
      deepClean (.obj (.cons "a" .jnull .nil)) ∧
    cleanInside (deepClean (.obj (.cons "a" .jnull .nil))) = true ∧
    normalizeDocument (.obj (.cons "version" (.str " ") .nil)) =
      some (.obj (.cons "version" (.str "0.1") .nil)) ∧
    normalizeDocument (.obj (.cons "version" (.str "0.1") .nil)) =
      some (.obj (.cons "version" (.str "0.1") .nil)) :=
  ⟨c10_deepClean_idempotent_and_clean.1 _,
   c10_deepClean_idempotent_and_clean.2.1 _,
   by decide,
   c10_deepClean_idempotent_and_clean.2.2 (.cons "version" (.str " ") .nil)
     (.obj (.cons "version" (.str "0.1") .nil)) (by decide) (by decide)⟩

/-- Counterexample to C10 as stated: cleaning `[null]` yields the empty
array — itself a droppable value — so the result of `deepClean` can contain
(namely, be) an empty array, contradicting the claim's "no empty array at
any depth". -/
theorem c10_counterexample :
    deepClean (.arr (.cons .jnull .nil)) = .arr .nil ∧
    shouldDrop (.arr .nil) = true := by decide

/-- `pickReady` only returns nodes of the flow, under their own id, that
satisfy the join rule. -/
theorem pickReady_sound (flow : FlowDefinition) (st : ExecState) :
    ∀ (frontier : List String) (nid : String) (n : FlowNode),
    pickReady flow st frontier = some (nid, n) →
    n ∈ flow.nodes ∧ n.base.id = nid ∧ nodeReady st n = true := by
  intro frontier
  induction frontier with
  | nil => intro nid n h; simp [pickReady] at h
  | cons x rest ih =>
      intro nid n h
      rw [pickReady] at h
      cases hf : findNode flow x with
      | none => simp only [hf] at h; exact ih nid n h
      | some m =>
          simp only [hf] at h
          by_cases hr : nodeReady st m = true
          · rw [if_pos hr] at h
            have hpair := Option.some.inj h
            rw [Prod.mk.injEq] at hpair
            obtain ⟨h1, h2⟩ := hpair
            subst h2
            refine ⟨List.mem_of_find?_eq_some hf, ?_, hr⟩
            have := List.find?_some hf
            rw [← h1]
            exact eq_of_beq this
          · rw [if_neg hr] at h
            exact ih nid n h

/-- Claim C7: a Merge node fires exactly when every one of its declared
inputs has produced a value — the uniform join rule `nodeReady` holds iff
every declared input is bound; with any declared input withheld the node is
not ready and the driver's `pickReady` never selects it (no progress); and
the Merge step of `execNodeStep` performs no model or tool call and appends
no transcript turn, only binding the ordered collection of its input
values. -/
theorem c7_merge_fires_iff_all_inputs :
    (∀ st n, nodeReady st n = true ↔
      ∀ i ∈ declaredInputs n, (st.values.lookup i.from_).isSome = true) ∧
    (∀ st n i, i ∈ declaredInputs n → st.values.lookup i.from_ = none →
      nodeReady st n = false) ∧
    (∀ flow st frontier nid n, pickReady flow st frontier = some (nid, n) →
      nodeReady st n = true) ∧
    (∀ oracle st n st2 lab, n.kind = .merge → execNodeStep oracle st n = .ok (st2, lab) →
      st2.providerCalls = st.providerCalls ∧ st2.toolCalls = st.toolCalls ∧
      st2.transcript = st.transcript ∧
      st2.values = st.values ++ [(n.base.id ++ "/" ++ nodeOutLabel n, joinInputValues st n)]) := by
  refine ⟨?_, ?_, ?_, ?_⟩
  · intro st n
    simp [nodeReady, List.all_eq_true]
  · intro st n i hi hnone
    cases hr : nodeReady st n with
    | false => rfl
    | true =>
        exfalso
        rw [nodeReady, List.all_eq_true] at hr
        have hthis := hr i hi
        rw [hnone] at hthis
        simp at hthis
  · intro flow st frontier nid n h
    exact (pickReady_sound flow st frontier nid n h).2.2
  · intro oracle st n st2 lab hk h
    simp only [execNodeStep, hk] at h
    have hpair := Except.ok.inj h
    rw [Prod.mk.injEq] at hpair
    obtain ⟨h1, h2⟩ := hpair
    subst h1
    exact ⟨rfl, rfl, rfl, rfl⟩

/-- Witness for C7: with one input withheld the merge is not ready; with all
inputs bound the merge step succeeds without touching the call counters. -/
theorem c7_merge_fires_iff_all_inputs_witness :
    nodeReady stPartial mergeNode = false ∧
    ∃ st2 lab, execNodeStep tOracle stFull mergeNode = .ok (st2, lab) ∧
      st2.providerCalls = stFull.providerCalls ∧ st2.toolCalls = stFull.toolCalls := by
  refine ⟨?_, ?_⟩
  · exact c7_merge_fires_iff_all_inputs.2.1 stPartial mergeNode { from_ := "b/out" }
      (by decide) (by decide)
  · obtain ⟨h1, h2, _, _⟩ :=
      c7_merge_fires_iff_all_inputs.2.2.2 tOracle stFull mergeNode _ _ rfl rfl
    exact ⟨_, _, rfl, h1, h2⟩

/-- Claim C6: a subflow invocation whose target flow is already in flight —
the runtime meaning of a flow that directly or transitively invokes itself,
since `run` seeds the call stack with the entry flow id and every subflow
entry pushes its target — is rejected with a cycle-detected error
immediately, leaving the context (in particular the model-provider and tool
call counters) untouched; concretely, running the mutually recursive
document `cycDoc` fails with `cycleDetected "A"` after zero model and zero
tool calls. -/
theorem c6_subflow_cycle_rejected :
    (∀ doc oracle flow st frontier fuel nid n target,
      pickReady flow st frontier = some (nid, n) →
      n.kind = .subflow target →
      target ∈ st.callStack →
      runLoop doc oracle flow st frontier (fuel + 1) =
        (st, .error (.cycleDetected target))) ∧
    (run cycDoc "A" "t" tOracle).2 = .error (.cycleDetected "A") ∧
    (run cycDoc "A" "t" tOracle).1.providerCalls = 0 ∧
    (run cycDoc "A" "t" tOracle).1.toolCalls = 0 := by
  refine ⟨?_, rfl, rfl, rfl⟩
  intro doc oracle flow st frontier fuel nid n target hpick hk hstack
  simp only [runLoop, hpick, hk]
  rw [if_pos hstack]

/-- Witness for C6 at a concrete mid-run state of `cycFlowB`. -/
theorem c6_subflow_cycle_rejected_witness :
    runLoop cycDoc tOracle cycFlowB stCyc ["sub2"] 5 =
      (stCyc, .error (.cycleDetected "A")) :=
  c6_subflow_cycle_rejected.1 cycDoc tOracle cycFlowB stCyc ["sub2"] 4 "sub2"
    subNodeB "A" rfl rfl (by decide)

/-- A successful `runLoop` names an Output node of the flow it was driving
and reports the final transcript. -/
theorem runLoop_ok_output : ∀ (fuel : Nat) (doc : FlowDocument) (oracle : Oracle)
    (flow : FlowDefinition) (st : ExecState) (frontier : List String)
    (st2 : ExecState) (r : RunSuccess),
    runLoop doc oracle flow st frontier fuel = (st2, .ok r) →
    (∃ n, n ∈ flow.nodes ∧ n.base.id = r.outputNode ∧ n.kind = .output) ∧
    r.transcript = st2.transcript := by
  intro fuel
  induction fuel with
  | zero =>
      intro doc oracle flow st frontier st2 r h
      rw [runLoop] at h
      simp at h
  | succ fuel ih =>
      intro doc oracle flow st frontier st2 r h
      rw [runLoop] at h
      cases hpick : pickReady flow st frontier with
      | none => simp only [hpick] at h; simp at h
      | some p =>
          obtain ⟨nid, n⟩ := p
          simp only [hpick] at h
          cases hk : n.kind with
          | output =>
              simp only [hk] at h
              rw [Prod.mk.injEq] at h
              obtain ⟨hst, hr⟩ := h
              have hr2 := Except.ok.inj hr
              obtain ⟨hmem, hid, hready⟩ := pickReady_sound flow st frontier nid n hpick
              subst hst
              constructor
              · exact ⟨n, hmem, by rw [← hr2]; exact hid, hk⟩
              · rw [← hr2]
          | subflow target =>
              simp only [hk] at h
              split at h
              · simp at h
              · split at h
                · simp at h
                · split at h
                  · simp at h
                  · exact ih doc oracle flow _ _ _ r h
          | input =>
              simp only [hk] at h
              split at h
              · simp at h
              · exact ih doc oracle flow _ _ _ r h
          | agent a p1 p2 p3 =>
              simp only [hk] at h
              split at h
              · simp at h
              · exact ih doc oracle flow _ _ _ r h
          | decision p1 p2 =>
              simp only [hk] at h
              split at h
              · simp at h
              · exact ih doc oracle flow _ _ _ r h
          | tool t =>
              simp only [hk] at h
              split at h
              · simp at h
              · exact ih doc oracle flow _ _ _ r h
          | merge =>
              simp only [hk] at h
              split at h
              · simp at h
              · exact ih doc oracle flow _ _ _ r h
          | parallel p1 =>
              simp only [hk] at h
              split at h
              · simp at h
              · exact ih doc oracle flow _ _ _ r h
          | loop p1 p2 =>
              simp only [hk] at h
              split at h
              · simp at h
              · exact ih doc oracle flow _ _ _ r h

/-- Claim C1: for every document, flow id, task input and oracle, the engine
entry point `run` produces exactly one of the two outcomes — a success or a
typed failure, never both and never neither (the result is one constructor
of the `Except`, and `run` is a total function) — and a success names
exactly one Output node of the flow (the interpreter stops at the first
Output node that fires, and the success records that single node, which is
an Output-kind node of the executed flow) together with the full transcript
of the run. -/
theorem c1_run_single_outcome :
    (∀ doc fid input oracle,
      ((∃ r, (run doc fid input oracle).2 = .ok r) ∧
        ∀ e, (run doc fid input oracle).2 ≠ .error e) ∨
      ((∃ e, (run doc fid input oracle).2 = .error e) ∧
        ∀ r, (run doc fid input oracle).2 ≠ .ok r)) ∧
    (∀ doc fid input oracle r, (run doc fid input oracle).2 = .ok r →
      r.transcript = (run doc fid input oracle).1.transcript ∧
      ∃ flow, findFlow doc fid = some flow ∧
        ∃ n, n ∈ flow.nodes ∧ n.base.id = r.outputNode ∧ n.kind = .output) := by
  constructor
  · intro doc fid input oracle
    cases h : (run doc fid input oracle).2 with
    | ok r => exact Or.inl ⟨⟨r, rfl⟩, fun e he => Except.noConfusion he⟩
    | error e => exact Or.inr ⟨⟨e, rfl⟩, fun r hr => Except.noConfusion hr⟩
  · intro doc fid input oracle r h
    cases hf : findFlow doc fid with
    | none => rw [run] at h; simp only [hf] at h; simp at h
    | some flow =>
        rw [run] at h
        simp only [hf] at h
        cases hn : findNode flow flow.entry with
        | none => simp only [hn] at h; simp at h
        | some n0 =>
            simp only [hn] at h
            cases hloop : runLoop doc oracle flow
                { input := input, values := [], transcript := [], callStack := [fid]
                  providerCalls := 0, toolCalls := 0 } [flow.entry] (fuelFor doc) with
            | mk stEnd res =>
                rw [hloop] at h
                have h2 : res = Except.ok r := h
                subst h2
                obtain ⟨hex, htr⟩ :=
                  runLoop_ok_output (fuelFor doc) doc oracle flow _ _ stEnd r hloop
                refine ⟨?_, flow, rfl, hex⟩
                rw [htr]
                simp only [run, hf, hn, hloop]

/-- Witness for C1: the two-node document runs to the Output node `end`. -/
theorem c1_run_single_outcome_witness :
    (run tDoc "main" "task" tOracle).2 =
      .ok { output := "task", outputNode := "end", transcript := [] } ∧
    ∃ flow, findFlow tDoc "main" = some flow ∧
      ∃ n, n ∈ flow.nodes ∧ n.base.id = "end" ∧ n.kind = .output := by
  have h : (run tDoc "main" "task" tOracle).2 =
      .ok { output := "task", outputNode := "end", transcript := [] } := rfl
  exact ⟨h, (c1_run_single_outcome.2 tDoc "main" "task" tOracle _ h).2⟩

end Denkwerk
